import Mathlib

/-!
A shallow embedding of the restore-reconciliation engine of the `sweep`
repository (`src/restore.rs`) together with theorems checking the
specification's claims about it.

External collaborators are made explicit parameters:
* the deletion-history store (`list_logs` / `load_log`) is passed in as the
  already-loaded list of `DeletionLog`s, newest first;
* the trash-store capability is passed in as the enumerated list of
  `TrashItem`s plus a per-item success predicate `cap` for the underlying
  `restore_all` call;
* the filesystem is a list of existing paths, threaded through the run;
* observable actions (trash enumeration, index lookups, capability
  invocations, progress callbacks) are recorded in an event trace.
-/

namespace Sweep

/-- A deletion record as consumed by `restore.rs`: the fields `path`,
`success`, `permanent` and `size_bytes` are exactly the ones the engine
reads (`record.path`, `record.success`, `record.permanent`,
`record.size_bytes`). -/
structure DeletionRecord where
  path : String
  success : Bool
  permanent : Bool
  size_bytes : Nat
deriving Repr, DecidableEq

/-- A deletion log: the ordered records of one cleaning session
(`log.records` in `restore.rs`). -/
structure DeletionLog where
  records : List DeletionRecord
deriving Repr, DecidableEq

/-- A live trash-store entry as exposed by the `trash` crate: an
`original_parent` directory and a leaf `name`; their join reconstructs the
original absolute path. -/
structure TrashItem where
  original_parent : String
  name : String
deriving Repr, DecidableEq

/-- `RestoreResult` from `restore.rs` (lines 394-400). -/
structure RestoreResult where
  restored : Nat := 0
  restored_bytes : Nat := 0
  errors : Nat := 0
  not_found : Nat := 0
deriving Repr, DecidableEq

/-- Embedding of `item.original_parent.join(&item.name).display()` for the
absolute-parent / relative-leaf shape used throughout `restore.rs`: the
parent, one separator, the leaf name. -/
def joinPath (parent name : String) : String := parent ++ "/" ++ name

/-- Embedding of Rust `str::replace('\\', "/")`: every backslash character
becomes a forward slash. -/
def replaceBackslash (s : String) : String :=
  String.mk (s.data.map (fun c => if c = '\\' then '/' else c))

/-- Embedding of Rust `str::to_lowercase` at the character level. -/
def lowercase (s : String) : String := String.mk (s.data.map Char.toLower)

/-- `normalize_path_for_comparison` (restore.rs lines 60-71), with the
compile-time `cfg(windows)` switch made an explicit boolean parameter:
on Windows, replace backslashes and lowercase; elsewhere the identity. -/
def normalize_path_for_comparison (windows : Bool) (path : String) : String :=
  if windows then lowercase (replaceBackslash path) else path

/-- Embedding of Rust `str::starts_with` on path strings: character-list
prefix test. -/
def strStartsWith (s pre : String) : Bool := List.isPrefixOf pre.data s.data

/-- Embedding of Rust `str::ends_with('/')`. -/
def strEndsWithSlash (s : String) : Bool :=
  match s.data.getLast? with
  | some c => c == '/'
  | none => false

/-- The directory-prefix computation of restore.rs lines 163-167 (and
255-259): append exactly one trailing separator unless the normalized path
already ends with one. -/
def withTrailingSep (s : String) : String :=
  if strEndsWithSlash s then s else s ++ "/"

/-- The restorable-record filter used by `get_restore_count` (line 30),
the `total_to_restore` count (line 96) and the per-record skip (line 113):
`r.success && !r.permanent`. -/
def restorable (r : DeletionRecord) : Bool := r.success && !r.permanent

/-- One `HashMap::insert` step of the `bin_map` construction: overwrite the
value if the key is present, otherwise add the binding. -/
def insertBin : List (String × TrashItem) → String → TrashItem → List (String × TrashItem)
  | [], k, v => [(k, v)]
  | (k', v') :: rest, k, v =>
    if k' = k then (k, v) :: rest else (k', v') :: insertBin rest k v

/-- The `bin_map` of `restore_from_log_with_progress` (lines 102-109): live
trash entries keyed by the normalized reconstructed original path. -/
def buildBinMap (windows : Bool) (items : List TrashItem) : List (String × TrashItem) :=
  items.foldl
    (fun m it =>
      insertBin m (normalize_path_for_comparison windows (joinPath it.original_parent it.name)) it)
    []

/-- `bin_map.get(&normalized_record_path)` (line 133). -/
def lookupBin : List (String × TrashItem) → String → Option TrashItem
  | [], _ => none
  | (k, v) :: rest, key => if k = key then some v else lookupBin rest key

/-- Observable actions of one reconciliation run, recorded in order. -/
inductive Event where
  | listTrash : Event
  | lookup : String → Event
  | invoke : TrashItem → Event
  | callback : Option String → Nat → Nat → Nat → Nat → Event
deriving Repr, DecidableEq

/-- Outcome of one `restore_file` call: whether it succeeded, the
filesystem afterwards, and the events it produced. -/
structure FileOut where
  ok : Bool
  fs : List String
  events : List Event
deriving Repr, DecidableEq

/-- `restore_file` (restore.rs lines 366-391): create the missing parent
directory, refuse if the destination already exists, otherwise invoke the
trash-store restore capability `cap` (which may itself fail). -/
def restore_file (cap : TrashItem → Bool) (fs : List String) (item : TrashItem) : FileOut :=
  let dest := joinPath item.original_parent item.name
  let fs1 := if item.original_parent ∈ fs then fs else item.original_parent :: fs
  if dest ∈ fs1 then ⟨false, fs1, []⟩
  else if cap item then ⟨true, dest :: fs1, [Event.invoke item]⟩
  else ⟨false, fs1, [Event.invoke item]⟩

/-- Accumulated outcome of the directory-fallback scan of lines 170-203:
`found_any`, `restored_count`, `restore_errors`, plus the filesystem and
events. -/
structure ScanOut where
  found_any : Bool
  restored_count : Nat
  restore_errors : Nat
  fs : List String
  events : List Event
deriving Repr, DecidableEq

/-- The directory-fallback scan (lines 174-203): walk the `bin_map`, and for
every entry whose normalized path starts with the record's directory prefix
attempt `restore_file`, counting successes and failures. -/
def scanChildren (cap : TrashItem → Bool) (pre : String) :
    List (String × TrashItem) → List String → ScanOut
  | [], fs => ⟨false, 0, 0, fs, []⟩
  | (k, it) :: rest, fs =>
    if strStartsWith k pre then
      let fo := restore_file cap fs it
      let so := scanChildren cap pre rest fo.fs
      ⟨true, (if fo.ok then 1 else 0) + so.restored_count,
        (if fo.ok then 0 else 1) + so.restore_errors, so.fs, fo.events ++ so.events⟩
    else scanChildren cap pre rest fs

/-- The progress callback of `restore.rs` (line 12), modelled as a pure
function of the number of prior invocations (standing in for the `FnMut`
state) and the four counters; it may fail, which is the engine's only
cancellation mechanism. -/
def RestoreProgressCallback : Type :=
  Nat → Option String → Nat → Nat → Nat → Nat → Except String Unit

/-- The mutable loop state of `restore_from_log_with_progress`: the result
counters, the filesystem, the event trace and the number of callback
invocations so far. -/
structure St where
  result : RestoreResult
  fs : List String
  trace : List Event
  cbCount : Nat
deriving Repr

/-- One iteration of the record loop of `restore_from_log_with_progress`
(restore.rs lines 112-231): skip non-restorable records; otherwise fire the
progress callback (aborting on its failure), try the exact match, and fall
back to the directory-prefix scan. Returns the new state and, on callback
failure, the propagated error. -/
def processRecord (windows : Bool) (cap : TrashItem → Bool)
    (cb : Option RestoreProgressCallback) (binMap : List (String × TrashItem))
    (total : Nat) (st : St) (r : DeletionRecord) : St × Option String :=
  if !r.success || r.permanent then (st, none)
  else
    let normalized := normalize_path_for_comparison windows r.path
    let cbStep : St × Option String :=
      match cb with
      | none => (st, none)
      | some f =>
        let st1 : St :=
          { st with
            trace := st.trace ++
              [Event.callback (some r.path) st.result.restored total
                st.result.errors st.result.not_found],
            cbCount := st.cbCount + 1 }
        match f st.cbCount (some r.path) st.result.restored total
            st.result.errors st.result.not_found with
        | Except.ok _ => (st1, none)
        | Except.error e => (st1, some e)
    match cbStep with
    | (st1, some e) => (st1, some e)
    | (st1, none) =>
      let st2 : St := { st1 with trace := st1.trace ++ [Event.lookup normalized] }
      match lookupBin binMap normalized with
      | some item =>
        let fo := restore_file cap st2.fs item
        let st3 : St := { st2 with fs := fo.fs, trace := st2.trace ++ fo.events }
        if fo.ok then
          ({ st3 with
              result :=
                { st3.result with
                  restored := st3.result.restored + 1,
                  restored_bytes := st3.result.restored_bytes + r.size_bytes } },
            none)
        else
          ({ st3 with result := { st3.result with errors := st3.result.errors + 1 } }, none)
      | none =>
        let pre := withTrailingSep normalized
        let so := scanChildren cap pre binMap st2.fs
        let st3 : St := { st2 with fs := so.fs, trace := st2.trace ++ so.events }
        if so.found_any then
          let st4 : St :=
            if so.restored_count > 0 then
              { st3 with
                result :=
                  { st3.result with
                    restored := st3.result.restored + 1,
                    restored_bytes := st3.result.restored_bytes + r.size_bytes } }
            else st3
          ({ st4 with result := { st4.result with errors := st4.result.errors + so.restore_errors } },
            none)
        else
          ({ st3 with result := { st3.result with not_found := st3.result.not_found + 1 } },
            none)

/-- The record loop of lines 112-231: process records in stored order,
stopping (with the error and the state reached so far) as soon as a
callback fails. -/
def runRecords (windows : Bool) (cap : TrashItem → Bool)
    (cb : Option RestoreProgressCallback) (binMap : List (String × TrashItem))
    (total : Nat) : List DeletionRecord → St → St × Option String
  | [], st => (st, none)
  | r :: rest, st =>
    match processRecord windows cap cb binMap total st r with
    | (st', none) => runRecords windows cap cb binMap total rest st'
    | (st', some e) => (st', some e)

/-- The state at the top of the record loop: default counters, the ambient
filesystem, the trash store just enumerated, no callbacks yet. -/
def initSt (fs0 : List String) : St := ⟨{}, fs0, [Event.listTrash], 0⟩

/-- What one entry point returns: the `Result<RestoreResult>`, the final
filesystem, and the event trace. -/
structure RunOut where
  result : Except String RestoreResult
  fs : List String
  trace : List Event
deriving Repr

/-- `restore_from_log_with_progress` (restore.rs lines 82-245): enumerate
the trash store, precompute `total_to_restore`, build the `bin_map`, run the
record loop, then fire the terminal callback. -/
def restore_from_log_with_progress (windows : Bool) (cap : TrashItem → Bool)
    (cb : Option RestoreProgressCallback) (trashItems : List TrashItem)
    (fs0 : List String) (log : DeletionLog) : RunOut :=
  let total := (log.records.filter restorable).length
  let binMap := buildBinMap windows trashItems
  match runRecords windows cap cb binMap total log.records (initSt fs0) with
  | (st, some e) => ⟨Except.error e, st.fs, st.trace⟩
  | (st, none) =>
    match cb with
    | none => ⟨Except.ok st.result, st.fs, st.trace⟩
    | some f =>
      let tr := st.trace ++
        [Event.callback none st.result.restored total st.result.errors st.result.not_found]
      match f st.cbCount none st.result.restored total st.result.errors st.result.not_found with
      | Except.ok _ => ⟨Except.ok st.result, st.fs, tr⟩
      | Except.error e => ⟨Except.error e, st.fs, tr⟩

/-- `restore_last_with_progress` (restore.rs lines 42-57), with the
deletion-history store passed in as the already-loaded logs, newest first:
on an empty store fail before touching the trash store, otherwise reconcile
the newest log. -/
def restore_last_with_progress (windows : Bool) (cap : TrashItem → Bool)
    (cb : Option RestoreProgressCallback) (trashItems : List TrashItem)
    (fs0 : List String) (logs : List DeletionLog) : RunOut :=
  match logs with
  | [] => ⟨Except.error "No deletion history found. Nothing to restore.", fs0, []⟩
  | l :: _ => restore_from_log_with_progress windows cap cb trashItems fs0 l

/-- `get_restore_count` (restore.rs lines 16-34), with the history store
passed in as the loaded logs: 0 on an empty store, otherwise the number of
restorable records of the newest session. It consults no trash state. -/
def get_restore_count (logs : List DeletionLog) : Nat :=
  match logs with
  | [] => 0
  | l :: _ => (l.records.filter restorable).length

/-- The exact-match loop of `restore_path` (lines 262-294): the first trash
item whose normalized reconstructed path equals the normalized target. -/
def findExact (windows : Bool) (normalized : String) :
    List TrashItem → Option TrashItem
  | [] => none
  | it :: rest =>
    if normalize_path_for_comparison windows (joinPath it.original_parent it.name) = normalized
    then some it
    else findExact windows normalized rest

/-- Accumulated outcome of the directory-fallback scan of `restore_path`
(lines 303-325), which also sums the post-move filesystem sizes. -/
structure ScanBytesOut where
  found_any : Bool
  restored_count : Nat
  restored_bytes : Nat
  restore_errors : Nat
  fs : List String
  events : List Event
deriving Repr, DecidableEq

/-- The `restore_path` fallback scan (lines 303-325): walk the enumerated
trash items, restore every one under the directory prefix, and read each
restored file's size from the filesystem (`fsize`) after the move. -/
def scanPathChildren (windows : Bool) (cap : TrashItem → Bool) (fsize : String → Nat)
    (pre : String) : List TrashItem → List String → ScanBytesOut
  | [], fs => ⟨false, 0, 0, 0, fs, []⟩
  | it :: rest, fs =>
    let k := normalize_path_for_comparison windows (joinPath it.original_parent it.name)
    if strStartsWith k pre then
      let fo := restore_file cap fs it
      let so := scanPathChildren windows cap fsize pre rest fo.fs
      ⟨true, (if fo.ok then 1 else 0) + so.restored_count,
        (if fo.ok then fsize (joinPath it.original_parent it.name) else 0) + so.restored_bytes,
        (if fo.ok then 0 else 1) + so.restore_errors, so.fs, fo.events ++ so.events⟩
    else scanPathChildren windows cap fsize pre rest fs

/-- `restore_path` (restore.rs lines 248-363): enumerate the trash store,
try the exact match first (a failed exact restore fails the whole call),
then the directory-prefix fallback; with no match at all the whole call
fails. `restored_bytes` is read back from the filesystem via `fsize`. -/
def restore_path (windows : Bool) (cap : TrashItem → Bool) (fsize : String → Nat)
    (trashItems : List TrashItem) (fs0 : List String) (path : String) : RunOut :=
  let normalized := normalize_path_for_comparison windows path
  match findExact windows normalized trashItems with
  | some item =>
    let fo := restore_file cap fs0 item
    if fo.ok then
      ⟨Except.ok
          { restored := 1,
            restored_bytes := fsize (joinPath item.original_parent item.name),
            errors := 0, not_found := 0 },
        fo.fs, Event.listTrash :: fo.events⟩
    else
      ⟨Except.error ("Failed to restore " ++ path), fo.fs, Event.listTrash :: fo.events⟩
  | none =>
    let pre := withTrailingSep normalized
    let so := scanPathChildren windows cap fsize pre trashItems fs0
    if so.found_any then
      ⟨Except.ok
          { restored := if so.restored_count > 0 then 1 else 0,
            restored_bytes := if so.restored_count > 0 then so.restored_bytes else 0,
            errors := so.restore_errors, not_found := 0 },
        so.fs, Event.listTrash :: so.events⟩
    else
      ⟨Except.error ("File or directory not found in Recycle Bin: " ++ path), so.fs,
        Event.listTrash :: so.events⟩

/-- The progress-callback events of a trace, projected to the path argument
and the `total_to_restore` argument. -/
def callbackPT (tr : List Event) : List (Option String × Nat) :=
  tr.filterMap fun e =>
    match e with
    | Event.callback p _ t _ _ => some (p, t)
    | _ => none

lemma processRecord_skip (w : Bool) (cap : TrashItem → Bool)
    (cb : Option RestoreProgressCallback) (bm : List (String × TrashItem))
    (total : Nat) (st : St) (r : DeletionRecord) (h : restorable r = false) :
    processRecord w cap cb bm total st r = (st, none) := by
  have h' : (!r.success || r.permanent) = true := by
    cases hs : r.success <;> cases hp : r.permanent <;> simp_all [restorable]
  unfold processRecord
  simp [h']

lemma filter_restorable_idem (l : List DeletionRecord) :
    (l.filter restorable).filter restorable = l.filter restorable := by
  induction l with
  | nil => rfl
  | cons r rest ih =>
    by_cases hr : restorable r = true
    · simp [List.filter_cons, hr, ih]
    · have hr' : restorable r = false := by simpa using hr
      simp [List.filter_cons, hr', ih]

lemma runRecords_filter (w : Bool) (cap : TrashItem → Bool)
    (cb : Option RestoreProgressCallback) (bm : List (String × TrashItem))
    (total : Nat) (l : List DeletionRecord) :
    ∀ st : St, runRecords w cap cb bm total (l.filter restorable) st =
      runRecords w cap cb bm total l st := by
  induction l with
  | nil => intro st; rfl
  | cons r rest ih =>
    intro st
    by_cases hr : restorable r = true
    · rw [List.filter_cons, if_pos hr]
      show runRecords w cap cb bm total (r :: rest.filter restorable) st = _
      unfold runRecords
      rcases h : processRecord w cap cb bm total st r with ⟨st', err⟩
      cases err <;> simp [h, ih]
    · have hr' : restorable r = false := by simpa using hr
      rw [List.filter_cons, if_neg (by simp [hr'])]
      rw [ih st]
      conv_rhs => rw [runRecords]
      rw [processRecord_skip w cap cb bm total st r hr']

lemma joinPath_ne_parent (parent name : String) : joinPath parent name ≠ parent := by
  intro h
  have hlen := congrArg String.length h
  have h1 : String.length "/" = 1 := rfl
  simp [joinPath, String.length_append] at hlen
  omega

/-- C2: a record with `success == false` or `permanent == true` is skipped
entirely: removing the non-restorable records from a log changes nothing
about the reconciliation — not the result, not the filesystem, not one
event of the trace (so no trash-index lookup, no capability invocation and
no contribution to any counter comes from such a record), and the
precomputed restorable-record total is unchanged as well. -/
theorem restore_skips_unrestorable_records (w : Bool) (cap : TrashItem → Bool)
    (cb : Option RestoreProgressCallback) (trash : List TrashItem)
    (fs0 : List String) (log : DeletionLog) :
    restore_from_log_with_progress w cap cb trash fs0 ⟨log.records.filter restorable⟩ =
      restore_from_log_with_progress w cap cb trash fs0 log := by
  unfold restore_from_log_with_progress
  simp only [filter_restorable_idem, runRecords_filter]

/-- C4: the directory fallback appends exactly one separator to the
normalized record path, so `/a/b` does not match the trash entry
reconstructing to `/a/bc/d` (the whole run counts it `not_found`) while it
does match entries under `/a/b/`. -/
theorem prefix_separator_guard :
    withTrailingSep (normalize_path_for_comparison false "/a/b") = "/a/b/"
    ∧ strStartsWith (normalize_path_for_comparison false (joinPath "/a/bc" "d"))
        (withTrailingSep (normalize_path_for_comparison false "/a/b")) = false
    ∧ strStartsWith (normalize_path_for_comparison false (joinPath "/a/b" "x"))
        (withTrailingSep (normalize_path_for_comparison false "/a/b")) = true
    ∧ (restore_from_log_with_progress false (fun _ => true) none [⟨"/a/bc", "d"⟩] []
        ⟨[⟨"/a/b", true, false, 3⟩]⟩).result = Except.ok ⟨0, 0, 0, 1⟩
    ∧ (restore_from_log_with_progress false (fun _ => true) none [⟨"/a/b", "x"⟩] []
        ⟨[⟨"/a/b", true, false, 3⟩]⟩).result = Except.ok ⟨1, 3, 0, 0⟩ :=
  ⟨rfl, rfl, rfl, rfl, rfl⟩

/-- C6: normalization is the identity off Windows; on Windows it lower-cases
the path and turns every backslash into a forward slash (stated per
character), so a record for `C:\Users\X\File.txt` matches a trash entry
reconstructing to `c:/users/x/file.txt` and the whole run restores it. -/
theorem normalization_platform_behavior :
    (∀ p, normalize_path_for_comparison false p = p)
    ∧ (∀ p, normalize_path_for_comparison true p =
        String.mk (p.data.map (fun c => Char.toLower (if c = '\\' then '/' else c))))
    ∧ normalize_path_for_comparison true "C:\\Users\\X\\File.txt" = "c:/users/x/file.txt"
    ∧ normalize_path_for_comparison true "c:/users/x/file.txt" = "c:/users/x/file.txt"
    ∧ (restore_from_log_with_progress true (fun _ => true) none [⟨"c:/users/x", "file.txt"⟩] []
        ⟨[⟨"C:\\Users\\X\\File.txt", true, false, 5⟩]⟩).result = Except.ok ⟨1, 5, 0, 0⟩ := by
  refine ⟨fun p => rfl, fun p => ?_, rfl, rfl, rfl⟩
  simp only [normalize_path_for_comparison, lowercase, replaceBackslash, List.map_map]
  rfl

/-- C9: with no sessions in the history store, `restore_last` fails with the
descriptive "nothing to restore" error; the trace is empty, so the trash
store is never enumerated and no restore is attempted, and the filesystem
is untouched. -/
theorem restore_last_empty_history_errors (w : Bool) (cap : TrashItem → Bool)
    (cb : Option RestoreProgressCallback) (trash : List TrashItem) (fs0 : List String) :
    restore_last_with_progress w cap cb trash fs0 [] =
      ⟨Except.error "No deletion history found. Nothing to restore.", fs0, []⟩ := rfl

/-- C5 (amended): `restore_file` succeeds iff the destination does not
already exist AND the underlying trash-store capability call succeeds; an
existing destination is refused without ever invoking the capability (no
`invoke` event) and surfaces as an `errors` count, never an overwrite; the
destination's parent directory exists afterwards (created before the move);
a successful restore makes the destination exist. -/
theorem destination_collision_policy (cap : TrashItem → Bool) (fs : List String)
    (item : TrashItem) :
    ((restore_file cap fs item).ok = true ↔
      (joinPath item.original_parent item.name ∉ fs ∧ cap item = true))
    ∧ (joinPath item.original_parent item.name ∈ fs →
        (restore_file cap fs item).ok = false ∧ (restore_file cap fs item).events = [])
    ∧ item.original_parent ∈ (restore_file cap fs item).fs
    ∧ ((restore_file cap fs item).ok = true →
        joinPath item.original_parent item.name ∈ (restore_file cap fs item).fs)
    ∧ (restore_from_log_with_progress false (fun _ => true) none [⟨"/p", "f"⟩] ["/p/f"]
        ⟨[⟨"/p/f", true, false, 4⟩]⟩).result = Except.ok ⟨0, 0, 1, 0⟩ := by
  have hne := joinPath_ne_parent item.original_parent item.name
  refine ⟨?_, ?_, ?_, ?_, rfl⟩ <;>
    unfold restore_file <;>
    by_cases hp : item.original_parent ∈ fs <;>
    by_cases hd : joinPath item.original_parent item.name ∈ fs <;>
    by_cases hc : cap item <;>
    simp_all [List.mem_cons]

/-- C5 (counterexample to the claim as stated): a record with an exact
match whose destination does not exist on disk can still fail to restore,
because the underlying trash-store capability itself can fail; so "succeeds
iff the destination does not already exist" is too strong. -/
theorem destination_collision_needs_capability :
    lookupBin (buildBinMap false [⟨"/p", "f"⟩]) (normalize_path_for_comparison false "/p/f")
      = some ⟨"/p", "f"⟩
    ∧ ¬ ("/p/f" ∈ ([] : List String))
    ∧ (restore_from_log_with_progress false (fun _ => false) none [⟨"/p", "f"⟩] []
        ⟨[⟨"/p/f", true, false, 4⟩]⟩).result = Except.ok ⟨0, 0, 1, 0⟩ :=
  ⟨rfl, by simp, rfl⟩

/-- C1 (counterexample to the claim as stated): one restorable directory
record whose prefix scan finds two children, `x` restoring and `y` failing
because its destination already exists on disk, yields `restored = 1` and
`errors = 1`, so `restored + errors + not_found = 2` exceeds the single
restorable record, and that record is counted in two buckets at once. -/
theorem restore_result_sum_can_exceed_restorable_count :
    (restore_from_log_with_progress false (fun _ => true) none
        [⟨"/a/b", "x"⟩, ⟨"/a/b", "y"⟩] ["/a/b/y"] ⟨[⟨"/a/b", true, false, 100⟩]⟩).result
      = Except.ok ⟨1, 100, 1, 0⟩
    ∧ ((⟨[⟨"/a/b", true, false, 100⟩]⟩ : DeletionLog).records.filter restorable).length = 1
    ∧ (1 : Nat) + 1 + 0 ≠ 1 :=
  ⟨rfl, rfl, by decide⟩

lemma scanChildren_count (cap : TrashItem → Bool) (pre : String) :
    ∀ (l : List (String × TrashItem)) (fs : List String),
      (scanChildren cap pre l fs).restored_count + (scanChildren cap pre l fs).restore_errors =
        (l.filter (fun kv => strStartsWith kv.1 pre)).length := by
  intro l
  induction l with
  | nil => intro fs; rfl
  | cons kv rest ih =>
    intro fs
    rcases kv with ⟨k, it⟩
    by_cases h : strStartsWith k pre
    · have hrec := ih (restore_file cap fs it).fs
      simp only [scanChildren, h, if_true, List.filter_cons]
      cases (restore_file cap fs it).ok <;> simp [h] <;> omega
    · simp only [scanChildren, List.filter_cons]
      simp [h, ih fs]

lemma scanChildren_found_iff (cap : TrashItem → Bool) (pre : String) :
    ∀ (l : List (String × TrashItem)) (fs : List String),
      (scanChildren cap pre l fs).found_any = true ↔
        (l.filter (fun kv => strStartsWith kv.1 pre)).length ≠ 0 := by
  intro l
  induction l with
  | nil => intro fs; simp [scanChildren]
  | cons kv rest ih =>
    intro fs
    rcases kv with ⟨k, it⟩
    by_cases h : strStartsWith k pre
    · simp [scanChildren, h, List.filter_cons]
    · simp only [scanChildren, List.filter_cons]
      simp [h, ih fs]

lemma processRecord_cases (w : Bool) (cap : TrashItem → Bool)
    (cb : Option RestoreProgressCallback) (bm : List (String × TrashItem))
    (total : Nat) (st : St) (r : DeletionRecord) (st' : St)
    (hr : restorable r = true)
    (h : processRecord w cap cb bm total st r = (st', none)) :
    (∃ item, lookupBin bm (normalize_path_for_comparison w r.path) = some item ∧
      (((restore_file cap st.fs item).ok = true ∧
         st'.result = { st.result with
           restored := st.result.restored + 1,
           restored_bytes := st.result.restored_bytes + r.size_bytes })
       ∨ ((restore_file cap st.fs item).ok = false ∧
         st'.result = { st.result with errors := st.result.errors + 1 })))
    ∨ (lookupBin bm (normalize_path_for_comparison w r.path) = none ∧
      (((scanChildren cap (withTrailingSep (normalize_path_for_comparison w r.path)) bm st.fs).found_any = true ∧
          0 < (scanChildren cap (withTrailingSep (normalize_path_for_comparison w r.path)) bm st.fs).restored_count ∧
          st'.result = { st.result with
            restored := st.result.restored + 1,
            restored_bytes := st.result.restored_bytes + r.size_bytes,
            errors := st.result.errors +
              (scanChildren cap (withTrailingSep (normalize_path_for_comparison w r.path)) bm st.fs).restore_errors })
       ∨ ((scanChildren cap (withTrailingSep (normalize_path_for_comparison w r.path)) bm st.fs).found_any = true ∧
          (scanChildren cap (withTrailingSep (normalize_path_for_comparison w r.path)) bm st.fs).restored_count = 0 ∧
          st'.result = { st.result with
            errors := st.result.errors +
              (scanChildren cap (withTrailingSep (normalize_path_for_comparison w r.path)) bm st.fs).restore_errors })
       ∨ ((scanChildren cap (withTrailingSep (normalize_path_for_comparison w r.path)) bm st.fs).found_any = false ∧
          st'.result = { st.result with not_found := st.result.not_found + 1 }))) := by
  have hg : (!r.success || r.permanent) = false := by
    cases hs : r.success <;> cases hp : r.permanent <;> simp_all [restorable]
  unfold processRecord at h
  rw [hg] at h
  simp only [Bool.false_eq_true, if_false] at h
  cases cb with
  | none =>
    dsimp only at h
    cases hlk : lookupBin bm (normalize_path_for_comparison w r.path) with
    | some item =>
      rw [hlk] at h
      dsimp only at h
      cases hok : (restore_file cap st.fs item).ok with
      | true =>
        rw [hok] at h
        simp only [if_true] at h
        cases h
        exact Or.inl ⟨item, rfl, Or.inl ⟨hok, rfl⟩⟩
      | false =>
        rw [hok] at h
        simp only [Bool.false_eq_true, if_false] at h
        cases h
        exact Or.inl ⟨item, rfl, Or.inr ⟨hok, rfl⟩⟩
    | none =>
      rw [hlk] at h
      dsimp only at h
      cases hfa : (scanChildren cap (withTrailingSep (normalize_path_for_comparison w r.path)) bm st.fs).found_any with
      | true =>
        rw [hfa] at h
        simp only [if_true] at h
        by_cases hcnt : 0 < (scanChildren cap (withTrailingSep (normalize_path_for_comparison w r.path)) bm st.fs).restored_count
        · rw [if_pos hcnt] at h
          cases h
          exact Or.inr ⟨rfl, Or.inl ⟨rfl, hcnt, rfl⟩⟩
        · rw [if_neg hcnt] at h
          cases h
          exact Or.inr ⟨rfl, Or.inr (Or.inl ⟨rfl, by omega, rfl⟩)⟩
      | false =>
        rw [hfa] at h
        simp only [Bool.false_eq_true, if_false] at h
        cases h
        exact Or.inr ⟨rfl, Or.inr (Or.inr ⟨rfl, rfl⟩)⟩
  | some f =>
    dsimp only at h
    cases hcb : f st.cbCount (some r.path) st.result.restored total st.result.errors st.result.not_found with
    | error e => rw [hcb] at h; cases h
    | ok u =>
      rw [hcb] at h
      dsimp only at h
      cases hlk : lookupBin bm (normalize_path_for_comparison w r.path) with
      | some item =>
        rw [hlk] at h
        dsimp only at h
        cases hok : (restore_file cap st.fs item).ok with
        | true =>
          rw [hok] at h
          simp only [if_true] at h
          cases h
          exact Or.inl ⟨item, rfl, Or.inl ⟨hok, rfl⟩⟩
        | false =>
          rw [hok] at h
          simp only [Bool.false_eq_true, if_false] at h
          cases h
          exact Or.inl ⟨item, rfl, Or.inr ⟨hok, rfl⟩⟩
      | none =>
        rw [hlk] at h
        dsimp only at h
        cases hfa : (scanChildren cap (withTrailingSep (normalize_path_for_comparison w r.path)) bm st.fs).found_any with
        | true =>
          rw [hfa] at h
          simp only [if_true] at h
          by_cases hcnt : 0 < (scanChildren cap (withTrailingSep (normalize_path_for_comparison w r.path)) bm st.fs).restored_count
          · rw [if_pos hcnt] at h
            cases h
            exact Or.inr ⟨rfl, Or.inl ⟨rfl, hcnt, rfl⟩⟩
          · rw [if_neg hcnt] at h
            cases h
            exact Or.inr ⟨rfl, Or.inr (Or.inl ⟨rfl, by omega, rfl⟩)⟩
        | false =>
          rw [hfa] at h
          simp only [Bool.false_eq_true, if_false] at h
          cases h
          exact Or.inr ⟨rfl, Or.inr (Or.inr ⟨rfl, rfl⟩)⟩

lemma processRecord_counts (w : Bool) (cap : TrashItem → Bool)
    (cb : Option RestoreProgressCallback) (bm : List (String × TrashItem))
    (total : Nat) (st : St) (r : DeletionRecord) (st' : St)
    (h : processRecord w cap cb bm total st r = (st', none)) :
    st'.result.restored + st'.result.not_found ≤
      st.result.restored + st.result.not_found + (if restorable r then 1 else 0)
    ∧ st.result.restored + st.result.errors + st.result.not_found +
        (if restorable r then 1 else 0) ≤
      st'.result.restored + st'.result.errors + st'.result.not_found := by
  by_cases hr : restorable r = true
  · have hc := scanChildren_count cap (withTrailingSep (normalize_path_for_comparison w r.path)) bm st.fs
    have hf := scanChildren_found_iff cap (withTrailingSep (normalize_path_for_comparison w r.path)) bm st.fs
    rcases processRecord_cases w cap cb bm total st r st' hr h with
      ⟨item, hlk, ⟨hok, hres⟩ | ⟨hok, hres⟩⟩ |
      ⟨hlk, ⟨hfa, hcnt, hres⟩ | ⟨hfa, hcnt, hres⟩ | ⟨hfa, hres⟩⟩
    · rw [hres]; simp [hr] <;> omega
    · rw [hres]; simp [hr] <;> omega
    · rw [hres]; simp [hr] <;> omega
    · have hlen := hf.mp hfa
      rw [hres]; simp [hr] <;> omega
    · rw [hres]; simp [hr] <;> omega
  · have hr' : restorable r = false := by simpa using hr
    rw [processRecord_skip w cap cb bm total st r hr'] at h
    cases h
    simp [hr']

lemma runRecords_counts (w : Bool) (cap : TrashItem → Bool)
    (cb : Option RestoreProgressCallback) (bm : List (String × TrashItem))
    (total : Nat) :
    ∀ (l : List DeletionRecord) (st st' : St),
      runRecords w cap cb bm total l st = (st', none) →
      st'.result.restored + st'.result.not_found ≤
        st.result.restored + st.result.not_found + (l.filter restorable).length
      ∧ st.result.restored + st.result.errors + st.result.not_found +
          (l.filter restorable).length ≤
        st'.result.restored + st'.result.errors + st'.result.not_found := by
  intro l
  induction l with
  | nil =>
    intro st st' h
    cases h
    simp
  | cons r rest ih =>
    intro st st' h
    unfold runRecords at h
    rcases hp : processRecord w cap cb bm total st r with ⟨st1, err⟩
    rw [hp] at h
    cases err with
    | some e => cases h
    | none =>
      have h1 := processRecord_counts w cap cb bm total st r st1 hp
      have h2 := ih st1 st' h
      rw [List.filter_cons]
      by_cases hr : restorable r = true <;> simp only [hr] at h1 ⊢ <;> simp at h1 ⊢ <;> omega

lemma run_result_ok (w : Bool) (cap : TrashItem → Bool)
    (cb : Option RestoreProgressCallback) (trash : List TrashItem)
    (fs0 : List String) (log : DeletionLog) (res : RestoreResult)
    (h : (restore_from_log_with_progress w cap cb trash fs0 log).result = Except.ok res) :
    ∃ st', runRecords w cap cb (buildBinMap w trash) (log.records.filter restorable).length
        log.records (initSt fs0) = (st', none) ∧ st'.result = res := by
  unfold restore_from_log_with_progress at h
  dsimp only at h
  rcases hrun : runRecords w cap cb (buildBinMap w trash) (log.records.filter restorable).length
      log.records (initSt fs0) with ⟨st1, err⟩
  rw [hrun] at h
  cases err with
  | some e => simp at h
  | none =>
    refine ⟨st1, rfl, ?_⟩
    cases cb with
    | none =>
      dsimp only at h
      exact Except.ok.inj h
    | some f =>
      dsimp only at h
      cases hcb : f st1.cbCount none st1.result.restored (log.records.filter restorable).length
          st1.result.errors st1.result.not_found with
      | ok u =>
        rw [hcb] at h
        exact Except.ok.inj h
      | error e =>
        rw [hcb] at h
        simp at h

/-- C1 (amended): for every reconciliation run that returns a
`RestoreResult`, `restored + not_found` is at most the number of restorable
records of the log, and `restored + errors + not_found` is at least that
number; each restorable record lands in `restored` or `not_found` at most
once, but a directory-fallback record with both restored and failed
children contributes to `restored` and to `errors` at the same time, so the
three buckets can sum to more than the restorable-record count. -/
theorem restore_result_bounds_restorable_count (w : Bool) (cap : TrashItem → Bool)
    (cb : Option RestoreProgressCallback) (trash : List TrashItem)
    (fs0 : List String) (log : DeletionLog) (res : RestoreResult)
    (h : (restore_from_log_with_progress w cap cb trash fs0 log).result = Except.ok res) :
    res.restored + res.not_found ≤ (log.records.filter restorable).length
    ∧ (log.records.filter restorable).length ≤ res.restored + res.errors + res.not_found := by
  rcases run_result_ok w cap cb trash fs0 log res h with ⟨st', hrun, hres⟩
  have hb := runRecords_counts w cap cb (buildBinMap w trash)
    (log.records.filter restorable).length log.records (initSt fs0) st' hrun
  rw [hres] at hb
  simpa [initSt] using hb

/-- Witness for C1 (amended) at the spec's own three-record scenario. -/
theorem restore_result_bounds_restorable_count_witness :
    (1 : Nat) + 0 ≤
      ((⟨[⟨"/tmp/a.txt", true, false, 100⟩, ⟨"/tmp/b.txt", false, false, 7⟩,
          ⟨"/tmp/c.txt", true, true, 9⟩]⟩ : DeletionLog).records.filter restorable).length
    ∧ ((⟨[⟨"/tmp/a.txt", true, false, 100⟩, ⟨"/tmp/b.txt", false, false, 7⟩,
          ⟨"/tmp/c.txt", true, true, 9⟩]⟩ : DeletionLog).records.filter restorable).length ≤
        1 + 0 + 0 :=
  restore_result_bounds_restorable_count false (fun _ => true) none [⟨"/tmp", "a.txt"⟩] []
    ⟨[⟨"/tmp/a.txt", true, false, 100⟩, ⟨"/tmp/b.txt", false, false, 7⟩,
      ⟨"/tmp/c.txt", true, true, 9⟩]⟩ ⟨1, 100, 0, 0⟩ rfl

lemma callbackPT_append (a b : List Event) :
    callbackPT (a ++ b) = callbackPT a ++ callbackPT b := by
  simp [callbackPT, List.filterMap_append]

lemma restore_file_cbPT (cap : TrashItem → Bool) (fs : List String) (item : TrashItem) :
    callbackPT (restore_file cap fs item).events = [] := by
  unfold restore_file
  dsimp only
  repeat' split
  all_goals rfl

lemma scanChildren_cbPT (cap : TrashItem → Bool) (pre : String) :
    ∀ (l : List (String × TrashItem)) (fs : List String),
      callbackPT (scanChildren cap pre l fs).events = [] := by
  intro l
  induction l with
  | nil => intro fs; rfl
  | cons kv rest ih =>
    intro fs
    rcases kv with ⟨k, it⟩
    by_cases h : strStartsWith k pre
    · simp only [scanChildren, h, if_true]
      rw [callbackPT_append, restore_file_cbPT, ih]
      rfl
    · simp only [scanChildren, h]
      simp [h, ih fs]

lemma processRecord_trace (w : Bool) (cap : TrashItem → Bool)
    (f : RestoreProgressCallback) (bm : List (String × TrashItem))
    (total : Nat) (st : St) (r : DeletionRecord) (st' : St) (err : Option String)
    (hr : restorable r = true)
    (h : processRecord w cap (some f) bm total st r = (st', err)) :
    (∃ e, err = some e ∧ st'.result = st.result ∧ st'.fs = st.fs
      ∧ st'.cbCount = st.cbCount + 1
      ∧ st'.trace = st.trace ++ [Event.callback (some r.path) st.result.restored total
          st.result.errors st.result.not_found]
      ∧ f st.cbCount (some r.path) st.result.restored total st.result.errors
          st.result.not_found = Except.error e)
    ∨ (err = none
      ∧ ∃ tail, st'.trace = st.trace ++
          Event.callback (some r.path) st.result.restored total st.result.errors
            st.result.not_found ::
          Event.lookup (normalize_path_for_comparison w r.path) :: tail
        ∧ callbackPT tail = []) := by
  have hg : (!r.success || r.permanent) = false := by
    cases hs : r.success <;> cases hp : r.permanent <;> simp_all [restorable]
  unfold processRecord at h
  rw [hg] at h
  simp only [Bool.false_eq_true, if_false] at h
  try dsimp only at h
  cases hcb : f st.cbCount (some r.path) st.result.restored total st.result.errors
      st.result.not_found with
  | error e =>
    rw [hcb] at h
    cases h
    exact Or.inl ⟨e, rfl, rfl, rfl, rfl, rfl, rfl⟩
  | ok u =>
    rw [hcb] at h
    dsimp only at h
    cases hlk : lookupBin bm (normalize_path_for_comparison w r.path) with
    | some item =>
      rw [hlk] at h
      dsimp only at h
      cases hok : (restore_file cap st.fs item).ok with
      | true =>
        rw [hok] at h
        simp only [if_true] at h
        cases h
        exact Or.inr ⟨rfl, (restore_file cap st.fs item).events,
          by simp, restore_file_cbPT cap st.fs item⟩
      | false =>
        rw [hok] at h
        simp only [Bool.false_eq_true, if_false] at h
        cases h
        exact Or.inr ⟨rfl, (restore_file cap st.fs item).events,
          by simp, restore_file_cbPT cap st.fs item⟩
    | none =>
      rw [hlk] at h
      dsimp only at h
      cases hfa : (scanChildren cap (withTrailingSep (normalize_path_for_comparison w r.path))
          bm st.fs).found_any with
      | true =>
        rw [hfa] at h
        simp only [if_true] at h
        by_cases hcnt : 0 < (scanChildren cap
            (withTrailingSep (normalize_path_for_comparison w r.path)) bm st.fs).restored_count
        · rw [if_pos hcnt] at h
          cases h
          exact Or.inr ⟨rfl, (scanChildren cap
              (withTrailingSep (normalize_path_for_comparison w r.path)) bm st.fs).events,
            by simp, scanChildren_cbPT cap _ bm st.fs⟩
        · rw [if_neg hcnt] at h
          cases h
          exact Or.inr ⟨rfl, (scanChildren cap
              (withTrailingSep (normalize_path_for_comparison w r.path)) bm st.fs).events,
            by simp, scanChildren_cbPT cap _ bm st.fs⟩
      | false =>
        rw [hfa] at h
        simp only [Bool.false_eq_true, if_false] at h
        cases h
        exact Or.inr ⟨rfl, (scanChildren cap
            (withTrailingSep (normalize_path_for_comparison w r.path)) bm st.fs).events,
          by simp, scanChildren_cbPT cap _ bm st.fs⟩

lemma processRecord_cbPT (w : Bool) (cap : TrashItem → Bool)
    (f : RestoreProgressCallback) (bm : List (String × TrashItem))
    (total : Nat) (st : St) (r : DeletionRecord) (st' : St) (err : Option String)
    (h : processRecord w cap (some f) bm total st r = (st', err)) :
    callbackPT st'.trace = callbackPT st.trace ++
      (if restorable r then [((some r.path : Option String), total)] else []) := by
  by_cases hr : restorable r = true
  · rcases processRecord_trace w cap f bm total st r st' err hr h with
      ⟨e, _, _, _, _, htr, _⟩ | ⟨_, tail, htr, htail⟩
    · rw [htr, callbackPT_append]
      simp [hr, callbackPT]
    · rw [htr, callbackPT_append]
      have hstep : callbackPT (Event.callback (some r.path) st.result.restored total
          st.result.errors st.result.not_found ::
          Event.lookup (normalize_path_for_comparison w r.path) :: tail) =
          ((some r.path : Option String), total) :: callbackPT tail := by
        simp [callbackPT]
      rw [hstep, htail]
      simp [hr]
  · have hr' : restorable r = false := by simpa using hr
    rw [processRecord_skip w cap (some f) bm total st r hr'] at h
    cases h
    simp [hr']

lemma runRecords_cbPT_ok (w : Bool) (cap : TrashItem → Bool)
    (f : RestoreProgressCallback) (bm : List (String × TrashItem)) (total : Nat) :
    ∀ (l : List DeletionRecord) (st st' : St),
      runRecords w cap (some f) bm total l st = (st', none) →
      callbackPT st'.trace = callbackPT st.trace ++
        (l.filter restorable).map (fun r => ((some r.path : Option String), total)) := by
  intro l
  induction l with
  | nil =>
    intro st st' h
    cases h
    simp
  | cons r rest ih =>
    intro st st' h
    unfold runRecords at h
    rcases hp : processRecord w cap (some f) bm total st r with ⟨st1, err1⟩
    rw [hp] at h
    cases err1 with
    | some e => cases h
    | none =>
      have h1 := processRecord_cbPT w cap f bm total st r st1 none hp
      have h2 := ih st1 st' h
      rw [h2, h1, List.filter_cons]
      by_cases hr : restorable r = true <;> simp [hr]

lemma pt_of_delta (pt : Option String × Nat) (b : Bool) (p : Option String) (total : Nat)
    (hin : pt ∈ (if b then [(p, total)] else [])) : pt.2 = total := by
  cases b
  · simp at hin
  · simp at hin
    rw [hin]

lemma runRecords_cbPT_mem (w : Bool) (cap : TrashItem → Bool)
    (f : RestoreProgressCallback) (bm : List (String × TrashItem)) (total : Nat) :
    ∀ (l : List DeletionRecord) (st st' : St) (err : Option String),
      runRecords w cap (some f) bm total l st = (st', err) →
      ∀ pt ∈ callbackPT st'.trace, pt ∈ callbackPT st.trace ∨ pt.2 = total := by
  intro l
  induction l with
  | nil =>
    intro st st' err h
    cases h
    intro pt hpt
    exact Or.inl hpt
  | cons r rest ih =>
    intro st st' err h
    unfold runRecords at h
    rcases hp : processRecord w cap (some f) bm total st r with ⟨st1, err1⟩
    rw [hp] at h
    have h1 := processRecord_cbPT w cap f bm total st r st1 err1 hp
    cases err1 with
    | some e =>
      cases h
      intro pt hpt
      rw [h1] at hpt
      rcases List.mem_append.mp hpt with hin | hin
      · exact Or.inl hin
      · exact Or.inr (pt_of_delta pt (restorable r) (some r.path) total hin)
    | none =>
      intro pt hpt
      rcases ih st1 st' err h pt hpt with hin | htot
      · rw [h1] at hin
        rcases List.mem_append.mp hin with hin2 | hin2
        · exact Or.inl hin2
        · exact Or.inr (pt_of_delta pt (restorable r) (some r.path) total hin2)
      · exact Or.inr htot

lemma runRecords_append (w : Bool) (cap : TrashItem → Bool)
    (cb : Option RestoreProgressCallback) (bm : List (String × TrashItem)) (total : Nat) :
    ∀ (l1 l2 : List DeletionRecord) (st st' : St) (e : String),
      runRecords w cap cb bm total l1 st = (st', some e) →
      runRecords w cap cb bm total (l1 ++ l2) st = (st', some e) := by
  intro l1
  induction l1 with
  | nil => intro l2 st st' e h; cases h
  | cons r rest ih =>
    intro l2 st st' e h
    show runRecords w cap cb bm total (r :: (rest ++ l2)) st = (st', some e)
    simp only [runRecords] at h ⊢
    rcases hp : processRecord w cap cb bm total st r with ⟨st1, err1⟩
    rw [hp] at h
    cases err1 with
    | some e1 =>
      try dsimp only at h ⊢
      exact h
    | none =>
      try dsimp only at h ⊢
      exact ih l2 st1 st' e h

lemma run_abort (w : Bool) (cap : TrashItem → Bool)
    (cb : Option RestoreProgressCallback) (trash : List TrashItem)
    (fs0 : List String) (log : DeletionLog) (st1 : St) (e : String)
    (h : runRecords w cap cb (buildBinMap w trash) (log.records.filter restorable).length
        log.records (initSt fs0) = (st1, some e)) :
    restore_from_log_with_progress w cap cb trash fs0 log =
      ⟨Except.error e, st1.fs, st1.trace⟩ := by
  unfold restore_from_log_with_progress
  dsimp only
  rw [h]

lemma run_ok_trace (w : Bool) (cap : TrashItem → Bool) (f : RestoreProgressCallback)
    (trash : List TrashItem) (fs0 : List String) (log : DeletionLog) (res : RestoreResult)
    (h : (restore_from_log_with_progress w cap (some f) trash fs0 log).result = Except.ok res) :
    ∃ st', runRecords w cap (some f) (buildBinMap w trash)
        (log.records.filter restorable).length log.records (initSt fs0) = (st', none)
      ∧ (restore_from_log_with_progress w cap (some f) trash fs0 log).trace =
          st'.trace ++ [Event.callback none st'.result.restored
            (log.records.filter restorable).length st'.result.errors st'.result.not_found] := by
  unfold restore_from_log_with_progress at h ⊢
  dsimp only at h ⊢
  rcases hrun : runRecords w cap (some f) (buildBinMap w trash)
      (log.records.filter restorable).length log.records (initSt fs0) with ⟨st1, err⟩
  rw [hrun] at h
  cases err with
  | some e => simp at h
  | none =>
    try dsimp only at h
    cases hcb : f st1.cbCount none st1.result.restored (log.records.filter restorable).length
        st1.result.errors st1.result.not_found with
    | ok u =>
      rw [hcb] at h
      refine ⟨st1, rfl, ?_⟩
      dsimp only
      rw [hcb]
    | error e =>
      rw [hcb] at h
      simp at h

lemma run_cbPT_total (w : Bool) (cap : TrashItem → Bool) (f : RestoreProgressCallback)
    (trash : List TrashItem) (fs0 : List String) (log : DeletionLog) :
    ∀ pt ∈ callbackPT (restore_from_log_with_progress w cap (some f) trash fs0 log).trace,
      pt.2 = (log.records.filter restorable).length := by
  unfold restore_from_log_with_progress
  dsimp only
  rcases hrun : runRecords w cap (some f) (buildBinMap w trash)
      (log.records.filter restorable).length log.records (initSt fs0) with ⟨st1, err⟩
  have hmem := runRecords_cbPT_mem w cap f (buildBinMap w trash)
    (log.records.filter restorable).length log.records (initSt fs0) st1 err hrun
  have hinit : callbackPT (initSt fs0).trace = [] := rfl
  cases err with
  | some e =>
    dsimp only
    intro pt hpt
    rcases hmem pt hpt with hin | htot
    · rw [hinit] at hin
      simp at hin
    · exact htot
  | none =>
    dsimp only
    cases f st1.cbCount none st1.result.restored (log.records.filter restorable).length
        st1.result.errors st1.result.not_found <;>
      · dsimp only
        intro pt hpt
        rw [callbackPT_append] at hpt
        rcases List.mem_append.mp hpt with hin | hin
        · rcases hmem pt hin with hin2 | htot
          · rw [hinit] at hin2
            simp at hin2
          · exact htot
        · have hsing : callbackPT [Event.callback none st1.result.restored
              (log.records.filter restorable).length st1.result.errors
              st1.result.not_found] =
              [((none : Option String), (log.records.filter restorable).length)] := rfl
          rw [hsing] at hin
          simp at hin
          rw [hin]

/-- C10: `get_restore_count` is 0 on an empty history store and otherwise
the restorable-record count of the newest session — exactly the
`total_to_restore` figure every progress callback of a later reconciliation
of that session receives; it consults no trash state (the model takes
none). -/
theorem get_restore_count_matches_reconciliation_total (w : Bool) (cap : TrashItem → Bool)
    (f : RestoreProgressCallback) (trash : List TrashItem) (fs0 : List String)
    (l : DeletionLog) (ls : List DeletionLog) :
    get_restore_count [] = 0
    ∧ get_restore_count (l :: ls) = (l.records.filter restorable).length
    ∧ (∀ pt ∈ callbackPT (restore_from_log_with_progress w cap (some f) trash fs0 l).trace,
        pt.2 = get_restore_count (l :: ls)) :=
  ⟨rfl, rfl, run_cbPT_total w cap f trash fs0 l⟩

/-- C7: with a callback supplied, a completed reconciliation fires exactly
one callback per restorable record, carrying that record's path and the
precomputed total, plus one terminal no-path invocation; per record the
callback event precedes the lookup and any capability events; a callback
failure leaves counters, filesystem and prior trace untouched except for
the failing callback event itself, stops the loop (records after the
failure are never processed), and surfaces that very error with the
filesystem as it stood — restored items stay restored. -/
theorem progress_callback_protocol (w : Bool) (cap : TrashItem → Bool)
    (f : RestoreProgressCallback) (trash : List TrashItem) (fs0 : List String)
    (log : DeletionLog) :
    (∀ res, (restore_from_log_with_progress w cap (some f) trash fs0 log).result = Except.ok res →
      callbackPT (restore_from_log_with_progress w cap (some f) trash fs0 log).trace =
        (log.records.filter restorable).map
          (fun r => ((some r.path : Option String), (log.records.filter restorable).length))
        ++ [((none : Option String), (log.records.filter restorable).length)])
    ∧ (∀ bm total st r st', restorable r = true →
        processRecord w cap (some f) bm total st r = (st', none) →
        ∃ tail, st'.trace = st.trace ++
          Event.callback (some r.path) st.result.restored total st.result.errors
            st.result.not_found ::
          Event.lookup (normalize_path_for_comparison w r.path) :: tail)
    ∧ (∀ bm total st r st' e, restorable r = true →
        processRecord w cap (some f) bm total st r = (st', some e) →
        st'.result = st.result ∧ st'.fs = st.fs ∧
        st'.trace = st.trace ++ [Event.callback (some r.path) st.result.restored total
          st.result.errors st.result.not_found] ∧
        f st.cbCount (some r.path) st.result.restored total st.result.errors
          st.result.not_found = Except.error e)
    ∧ (∀ bm total l1 l2 st st' e, runRecords w cap (some f) bm total l1 st = (st', some e) →
        runRecords w cap (some f) bm total (l1 ++ l2) st = (st', some e))
    ∧ (∀ st1 e, runRecords w cap (some f) (buildBinMap w trash)
          (log.records.filter restorable).length log.records (initSt fs0) = (st1, some e) →
        restore_from_log_with_progress w cap (some f) trash fs0 log =
          ⟨Except.error e, st1.fs, st1.trace⟩) := by
  refine ⟨?_, ?_, ?_, ?_, ?_⟩
  · intro res h
    rcases run_ok_trace w cap f trash fs0 log res h with ⟨st', hrun, htr⟩
    have hok := runRecords_cbPT_ok w cap f (buildBinMap w trash)
      (log.records.filter restorable).length log.records (initSt fs0) st' hrun
    have hinit : callbackPT (initSt fs0).trace = [] := rfl
    rw [htr, callbackPT_append, hok, hinit]
    simp [callbackPT]
  · intro bm total st r st' hr h
    rcases processRecord_trace w cap f bm total st r st' none hr h with
      ⟨e, he, _⟩ | ⟨_, tail, htr, _⟩
    · exact Option.noConfusion he
    · exact ⟨tail, htr⟩
  · intro bm total st r st' e hr h
    rcases processRecord_trace w cap f bm total st r st' (some e) hr h with
      ⟨e', he, hres, hfs, _, htr, hcb⟩ | ⟨hnone, _⟩
    · cases he
      exact ⟨hres, hfs, htr, hcb⟩
    · exact Option.noConfusion hnone
  · intro bm total l1 l2 st st' e h
    exact runRecords_append w cap (some f) bm total l1 l2 st st' e h
  · intro st1 e h
    exact run_abort w cap (some f) trash fs0 log st1 e h

/-- C3: for a restorable record with no exact match, if the prefix scan
found children and at least one child restore succeeded the record adds
exactly one to `restored` (not the child count) and its own logged
`size_bytes` to `restored_bytes`, while every failed child adds one to
`errors`; with children but no success only the failed children are
counted; with no children at all the record adds exactly one to
`not_found`; and the scan's success/failure tallies partition the matched
children. -/
theorem directory_fallback_counts (w : Bool) (cap : TrashItem → Bool)
    (cb : Option RestoreProgressCallback) (bm : List (String × TrashItem))
    (total : Nat) (st : St) (r : DeletionRecord) (st' : St)
    (hr : restorable r = true)
    (hmiss : lookupBin bm (normalize_path_for_comparison w r.path) = none)
    (h : processRecord w cap cb bm total st r = (st', none)) :
    ((scanChildren cap (withTrailingSep (normalize_path_for_comparison w r.path)) bm st.fs).found_any = true →
      0 < (scanChildren cap (withTrailingSep (normalize_path_for_comparison w r.path)) bm st.fs).restored_count →
        st'.result.restored = st.result.restored + 1
        ∧ st'.result.restored_bytes = st.result.restored_bytes + r.size_bytes
        ∧ st'.result.errors = st.result.errors +
            (scanChildren cap (withTrailingSep (normalize_path_for_comparison w r.path)) bm st.fs).restore_errors
        ∧ st'.result.not_found = st.result.not_found)
    ∧ ((scanChildren cap (withTrailingSep (normalize_path_for_comparison w r.path)) bm st.fs).found_any = true →
      (scanChildren cap (withTrailingSep (normalize_path_for_comparison w r.path)) bm st.fs).restored_count = 0 →
        st'.result.restored = st.result.restored
        ∧ st'.result.restored_bytes = st.result.restored_bytes
        ∧ st'.result.errors = st.result.errors +
            (scanChildren cap (withTrailingSep (normalize_path_for_comparison w r.path)) bm st.fs).restore_errors
        ∧ st'.result.not_found = st.result.not_found)
    ∧ ((scanChildren cap (withTrailingSep (normalize_path_for_comparison w r.path)) bm st.fs).found_any = false →
        st'.result.not_found = st.result.not_found + 1
        ∧ st'.result.restored = st.result.restored
        ∧ st'.result.restored_bytes = st.result.restored_bytes
        ∧ st'.result.errors = st.result.errors)
    ∧ (scanChildren cap (withTrailingSep (normalize_path_for_comparison w r.path)) bm st.fs).restored_count +
        (scanChildren cap (withTrailingSep (normalize_path_for_comparison w r.path)) bm st.fs).restore_errors =
        (bm.filter (fun kv => strStartsWith kv.1 (withTrailingSep (normalize_path_for_comparison w r.path)))).length
    ∧ ((scanChildren cap (withTrailingSep (normalize_path_for_comparison w r.path)) bm st.fs).found_any = true ↔
        (bm.filter (fun kv => strStartsWith kv.1 (withTrailingSep (normalize_path_for_comparison w r.path)))).length ≠ 0) := by
  rcases processRecord_cases w cap cb bm total st r st' hr h with
    ⟨item, hlk, _⟩ | ⟨_, hcase⟩
  · rw [hmiss] at hlk
    exact Option.noConfusion hlk
  · refine ⟨?_, ?_, ?_,
      scanChildren_count cap (withTrailingSep (normalize_path_for_comparison w r.path)) bm st.fs,
      scanChildren_found_iff cap (withTrailingSep (normalize_path_for_comparison w r.path)) bm st.fs⟩
    · intro hfa hcnt
      rcases hcase with ⟨_, _, hres⟩ | ⟨_, hcnt0, hres⟩ | ⟨hfa0, _⟩
      · rw [hres]
        simp
      · omega
      · rw [hfa0] at hfa
        exact Bool.noConfusion hfa
    · intro hfa hcnt0
      rcases hcase with ⟨_, hcntpos, hres⟩ | ⟨_, _, hres⟩ | ⟨hfa0, _⟩
      · omega
      · rw [hres]
        simp
      · rw [hfa0] at hfa
        exact Bool.noConfusion hfa
    · intro hfa0
      rcases hcase with ⟨hfa, _, _⟩ | ⟨hfa, _, _⟩ | ⟨_, hres⟩
      · rw [hfa] at hfa0
        exact Bool.noConfusion hfa0
      · rw [hfa] at hfa0
        exact Bool.noConfusion hfa0
      · rw [hres]
        simp

/-- A two-child directory scenario for exercising the fallback: the record
is `/a/b`, the trash holds `/a/b/x` and `/a/b/y`, and only `x` restores. -/
def exBinMap : List (String × TrashItem) := [("/a/b/x", ⟨"/a/b", "x"⟩), ("/a/b/y", ⟨"/a/b", "y"⟩)]

def exCap : TrashItem → Bool := fun it => it.name == "x"

def exRecord : DeletionRecord := ⟨"/a/b", true, false, 100⟩

def exSt' : St := (processRecord false exCap none exBinMap 1 (initSt []) exRecord).1

/-- Witness for C3 at the two-child directory scenario. -/
theorem directory_fallback_counts_witness :
    ((scanChildren exCap (withTrailingSep (normalize_path_for_comparison false exRecord.path)) exBinMap (initSt []).fs).found_any = true →
      0 < (scanChildren exCap (withTrailingSep (normalize_path_for_comparison false exRecord.path)) exBinMap (initSt []).fs).restored_count →
        exSt'.result.restored = (initSt []).result.restored + 1
        ∧ exSt'.result.restored_bytes = (initSt []).result.restored_bytes + exRecord.size_bytes
        ∧ exSt'.result.errors = (initSt []).result.errors +
            (scanChildren exCap (withTrailingSep (normalize_path_for_comparison false exRecord.path)) exBinMap (initSt []).fs).restore_errors
        ∧ exSt'.result.not_found = (initSt []).result.not_found)
    ∧ ((scanChildren exCap (withTrailingSep (normalize_path_for_comparison false exRecord.path)) exBinMap (initSt []).fs).found_any = true →
      (scanChildren exCap (withTrailingSep (normalize_path_for_comparison false exRecord.path)) exBinMap (initSt []).fs).restored_count = 0 →
        exSt'.result.restored = (initSt []).result.restored
        ∧ exSt'.result.restored_bytes = (initSt []).result.restored_bytes
        ∧ exSt'.result.errors = (initSt []).result.errors +
            (scanChildren exCap (withTrailingSep (normalize_path_for_comparison false exRecord.path)) exBinMap (initSt []).fs).restore_errors
        ∧ exSt'.result.not_found = (initSt []).result.not_found)
    ∧ ((scanChildren exCap (withTrailingSep (normalize_path_for_comparison false exRecord.path)) exBinMap (initSt []).fs).found_any = false →
        exSt'.result.not_found = (initSt []).result.not_found + 1
        ∧ exSt'.result.restored = (initSt []).result.restored
        ∧ exSt'.result.restored_bytes = (initSt []).result.restored_bytes
        ∧ exSt'.result.errors = (initSt []).result.errors)
    ∧ (scanChildren exCap (withTrailingSep (normalize_path_for_comparison false exRecord.path)) exBinMap (initSt []).fs).restored_count +
        (scanChildren exCap (withTrailingSep (normalize_path_for_comparison false exRecord.path)) exBinMap (initSt []).fs).restore_errors =
        (exBinMap.filter (fun kv => strStartsWith kv.1 (withTrailingSep (normalize_path_for_comparison false exRecord.path)))).length
    ∧ ((scanChildren exCap (withTrailingSep (normalize_path_for_comparison false exRecord.path)) exBinMap (initSt []).fs).found_any = true ↔
        (exBinMap.filter (fun kv => strStartsWith kv.1 (withTrailingSep (normalize_path_for_comparison false exRecord.path)))).length ≠ 0) :=
  directory_fallback_counts false exCap none exBinMap 1 (initSt []) exRecord exSt'
    rfl rfl rfl

lemma findExact_none_iff (w : Bool) (key : String) :
    ∀ l : List TrashItem, findExact w key l = none ↔
      ∀ it ∈ l, normalize_path_for_comparison w (joinPath it.original_parent it.name) ≠ key := by
  intro l
  induction l with
  | nil => simp [findExact]
  | cons it rest ih =>
    by_cases h : normalize_path_for_comparison w (joinPath it.original_parent it.name) = key
    · simp [findExact, h]
    · simp [findExact, h, ih]

lemma lookupBin_insertBin (k : String) (v : TrashItem) (key : String) :
    ∀ m : List (String × TrashItem),
      lookupBin (insertBin m k v) key = if k = key then some v else lookupBin m key := by
  intro m
  induction m with
  | nil => simp [insertBin, lookupBin]
  | cons kv rest ih =>
    rcases kv with ⟨k', v'⟩
    by_cases h : k' = k <;> by_cases h2 : k = key <;> by_cases h3 : k' = key <;>
      simp_all [insertBin, lookupBin]

lemma lookupBin_foldl_none_iff (w : Bool) (key : String) :
    ∀ (items : List TrashItem) (m : List (String × TrashItem)),
      lookupBin (items.foldl (fun m it =>
        insertBin m (normalize_path_for_comparison w (joinPath it.original_parent it.name)) it) m)
        key = none
      ↔ (lookupBin m key = none ∧
          ∀ it ∈ items, normalize_path_for_comparison w (joinPath it.original_parent it.name) ≠ key) := by
  intro items
  induction items with
  | nil => simp
  | cons it rest ih =>
    intro m
    simp only [List.foldl_cons]
    rw [ih]
    rw [lookupBin_insertBin]
    by_cases h : normalize_path_for_comparison w (joinPath it.original_parent it.name) = key
    · simp [h]
    · simp [h]
      try tauto

lemma exact_match_agreement (w : Bool) (key : String) (trash : List TrashItem) :
    findExact w key trash = none ↔ lookupBin (buildBinMap w trash) key = none := by
  rw [findExact_none_iff, buildBinMap, lookupBin_foldl_none_iff]
  simp [lookupBin]

/-- C8: `restore_path` matches with the same normalization, the same exact
match condition as the log engine's index (their misses coincide), and the
same one-trailing-separator prefix fallback; with no match either way the
whole call fails with the not-found error; an exact match that restores
reports `restored_bytes` read back from the filesystem at the destination
(`fsize`), there being no record to take a logged size from; an exact match
that fails to restore fails the whole call rather than tallying a bucket;
and the fallback reports the scan's filesystem-derived byte sum and
per-child failure count. -/
theorem restore_path_behavior (w : Bool) (cap : TrashItem → Bool) (fsize : String → Nat)
    (trash : List TrashItem) (fs0 : List String) (p : String) :
    (findExact w (normalize_path_for_comparison w p) trash = none →
      (scanPathChildren w cap fsize (withTrailingSep (normalize_path_for_comparison w p)) trash fs0).found_any = false →
      (restore_path w cap fsize trash fs0 p).result =
        Except.error ("File or directory not found in Recycle Bin: " ++ p))
    ∧ (∀ item, findExact w (normalize_path_for_comparison w p) trash = some item →
        (restore_file cap fs0 item).ok = true →
        (restore_path w cap fsize trash fs0 p).result =
          Except.ok ⟨1, fsize (joinPath item.original_parent item.name), 0, 0⟩)
    ∧ (∀ item, findExact w (normalize_path_for_comparison w p) trash = some item →
        (restore_file cap fs0 item).ok = false →
        (restore_path w cap fsize trash fs0 p).result =
          Except.error ("Failed to restore " ++ p))
    ∧ (findExact w (normalize_path_for_comparison w p) trash = none →
        (scanPathChildren w cap fsize (withTrailingSep (normalize_path_for_comparison w p)) trash fs0).found_any = true →
        (restore_path w cap fsize trash fs0 p).result = Except.ok
          ⟨if 0 < (scanPathChildren w cap fsize (withTrailingSep (normalize_path_for_comparison w p)) trash fs0).restored_count then 1 else 0,
           if 0 < (scanPathChildren w cap fsize (withTrailingSep (normalize_path_for_comparison w p)) trash fs0).restored_count
             then (scanPathChildren w cap fsize (withTrailingSep (normalize_path_for_comparison w p)) trash fs0).restored_bytes else 0,
           (scanPathChildren w cap fsize (withTrailingSep (normalize_path_for_comparison w p)) trash fs0).restore_errors, 0⟩)
    ∧ (findExact w (normalize_path_for_comparison w p) trash = none ↔
        lookupBin (buildBinMap w trash) (normalize_path_for_comparison w p) = none) := by
  refine ⟨?_, ?_, ?_, ?_, exact_match_agreement w (normalize_path_for_comparison w p) trash⟩
  · intro hex hfa
    unfold restore_path
    dsimp only
    rw [hex]
    dsimp only
    rw [hfa]
    rfl
  · intro item hex hok
    unfold restore_path
    dsimp only
    rw [hex]
    dsimp only
    rw [hok]
    rfl
  · intro item hex hok
    unfold restore_path
    dsimp only
    rw [hex]
    dsimp only
    rw [hok]
    rfl
  · intro hex hfa
    unfold restore_path
    dsimp only
    rw [hex]
    dsimp only
    rw [hfa]
    rfl

end Sweep
